import Mathlib

/-!
# Four-point-condition additivity checker: a shallow embedding

This file embeds the module `phylogeny/fpc.py` (the four-point-condition
test for additivity of a distance matrix) into Lean and proves the
specified properties of its three functions `fpc_sums`,
`four_point_condition` and `is_additive`.

Modelling choices:
* distances and the tolerance are rationals (the Python floats in the
  claims are small decimal literals, exact in `ℚ`);
* a distance matrix is a list of rows, exactly as the Python
  list-of-lists the module indexes with `distances[i][j]`;
* fallible evaluation (Python exceptions) is `Except PyErr`, with
  `match` spelling out the evaluation order of the Python expressions;
* the Python dict built by `fpc_sums` is an insertion-ordered
  association list: assigning to an existing key overwrites the value
  in place, a new key is appended (CPython dict semantics);
* the module has no `import` statement, so its global namespace binds
  only the four top-level names; the lookup of `itr` inside
  `is_additive` is modelled against that namespace.
-/

/-- The Python exceptions the module can raise: `IndexError` from a
list subscript out of range, `NameError` from an unbound global name,
`ValueError` from `max()` on an empty sequence. -/
inductive PyErr where
  | indexError
  | nameError
  | valueError
deriving DecidableEq

deriving instance DecidableEq for Except

/-- A distance matrix exactly as the module receives it: a list of rows,
subscripted `distances[i][j]`. -/
abbrev DistMatrix := List (List ℚ)

/-- Python `distances[i][j]` as a partial lookup (`none` models the
subscript raising `IndexError`). Quartet indices come from
`range(n)`, hence natural numbers. -/
def mget (distances : DistMatrix) (i j : ℕ) : Option ℚ :=
  (distances.get? i).bind fun row => row.get? j

/-- Lookup `distances[i][j]` in the `Except` monad: an out-of-range subscript
raises `IndexError`. -/
def mgetE (distances : DistMatrix) (i j : ℕ) : Except PyErr ℚ :=
  match mget distances i j with
  | some v => Except.ok v
  | none => Except.error PyErr.indexError

/-- Python `xs[i]` on a list/tuple, raising `IndexError` when out of
range. -/
def pyGet {α : Type} (xs : List α) (i : ℕ) : Except PyErr α :=
  match xs.get? i with
  | some v => Except.ok v
  | none => Except.error PyErr.indexError

/-- The module-level constant `_fpc_permutations`: the three canonical
position patterns `(0,1,2,3)`, `(0,2,1,3)`, `(0,3,1,2)`. -/
def _fpc_permutations : List (ℕ × ℕ × ℕ × ℕ) :=
  [(0, 1, 2, 3), (0, 2, 1, 3), (0, 3, 1, 2)]

/-- Evaluation of `tuple(q[i] for i in p)` for one position pattern `p`: index the
quartet at the four positions of the pattern, left to right, raising
`IndexError` at the first out-of-range position. -/
def tupleOfPattern (q : List ℕ) (p : ℕ × ℕ × ℕ × ℕ) :
    Except PyErr (ℕ × ℕ × ℕ × ℕ) :=
  match pyGet q p.1, pyGet q p.2.1, pyGet q p.2.2.1, pyGet q p.2.2.2 with
  | Except.ok i, Except.ok j, Except.ok k, Except.ok l => Except.ok (i, j, k, l)
  | Except.error e, _, _, _ => Except.error e
  | _, Except.error e, _, _ => Except.error e
  | _, _, Except.error e, _ => Except.error e
  | _, _, _, Except.error e => Except.error e

/-- The list comprehension
`[ tuple(q[i] for i in p) for p in patterns ]`, evaluated left to
right, surfacing the first exception. -/
def mapPatterns (q : List ℕ) : List (ℕ × ℕ × ℕ × ℕ) →
    Except PyErr (List (ℕ × ℕ × ℕ × ℕ))
  | [] => Except.ok []
  | p :: ps =>
    match tupleOfPattern q p with
    | Except.error e => Except.error e
    | Except.ok t =>
      match mapPatterns q ps with
      | Except.error e => Except.error e
      | Except.ok ts => Except.ok (t :: ts)

/-- The local `permutations` of `fpc_sums`: the quartet mapped through
`_fpc_permutations`. -/
def mapQuartet (q : List ℕ) : Except PyErr (List (ℕ × ℕ × ℕ × ℕ)) :=
  mapPatterns q _fpc_permutations

/-- A key of the dict built by `fpc_sums`: the two
index-pairs of the pairing `((i,j),(k,l))`. -/
abbrev FKey := (ℕ × ℕ) × (ℕ × ℕ)

/-- One assignment `d[k] = v` with CPython dict semantics on an
insertion-ordered association list: an existing key keeps its position
and gets the new value, a new key is appended. -/
def dictInsert (d : List (FKey × ℚ)) (k : FKey) (v : ℚ) : List (FKey × ℚ) :=
  if d.any fun e => decide (e.1 = k) then
    d.map fun e => if e.1 = k then (k, v) else e
  else
    d ++ [(k, v)]

/-- The dict comprehension of `fpc_sums`: for each mapped tuple
`(i,j,k,l)`, look up `distances[i][j]`, then `distances[k][l]`, and
assign their sum to the key `((i,j),(k,l))`. -/
def fpcFold (distances : DistMatrix) :
    List (ℕ × ℕ × ℕ × ℕ) → List (FKey × ℚ) → Except PyErr (List (FKey × ℚ))
  | [], d => Except.ok d
  | x :: rest, d =>
    match mgetE distances x.1 x.2.1 with
    | Except.error e => Except.error e
    | Except.ok v1 =>
      match mgetE distances x.2.2.1 x.2.2.2 with
      | Except.error e => Except.error e
      | Except.ok v2 =>
        fpcFold distances rest
          (dictInsert d ((x.1, x.2.1), (x.2.2.1, x.2.2.2)) (v1 + v2))

/-- Definition of `fpc_sums(distances, quartet)`: map the three position patterns
through the quartet, then build the dict
`{ ((i,j),(k,l)): distances[i][j] + distances[k][l] for i,j,k,l in permutations }`
by successive insertion. -/
def fpc_sums (distances : DistMatrix) (quartet : List ℕ) :
    Except PyErr (List (FKey × ℚ)) :=
  match mapQuartet quartet with
  | Except.error e => Except.error e
  | Except.ok permutations => fpcFold distances permutations []

/-- Definition of `four_point_condition(dist_matrix, quartet, tolerance=1e-2)`:
`sums = list(fpc_sums(...).values())`; `s_max = max(sums)` (Python
`max` raises `ValueError` on an empty sequence); the quartet passes iff
at least 2 of the sums satisfy `(s_max - s)**2 < tolerance`. The
default tolerance in the source is `1e-2`, i.e. `1/100`. -/
def four_point_condition (dist_matrix : DistMatrix) (quartet : List ℕ)
    (tolerance : ℚ) : Except PyErr Bool :=
  match fpc_sums dist_matrix quartet with
  | Except.error e => Except.error e
  | Except.ok d =>
    match d.map fun e => e.2 with
    | [] => Except.error PyErr.valueError
    | s0 :: rest =>
      let s_max := rest.foldl max s0
      if ((s0 :: rest).countP fun s => decide ((s_max - s) ^ 2 < tolerance)) < 2
      then Except.ok false
      else Except.ok true

/-- The check `four_point_condition` applies once the three pairing
sums `s1, s2, s3` are in hand (in dict insertion order):
`s_max = max(sums)`, pass iff at least 2 sums are within tolerance of
`s_max`. Factored out so invariance results can be stated on it. -/
def fpcCheck3 (s1 s2 s3 t : ℚ) : Bool :=
  if (List.countP (fun s => decide ((max (max s1 s2) s3 - s) ^ 2 < t)) [s1, s2, s3]) < 2
  then false
  else true

/-- The global names bound at module level in `fpc.py`. The module has
no `import` statement, so these four definitions are its whole global
namespace: in particular no binding named `itr` exists. -/
def moduleGlobals : List String :=
  ["_fpc_permutations", "fpc_sums", "four_point_condition", "is_additive"]

/-- The quartets `itertools.combinations(range(n), 4)` as `is_additive` would
consume it were `itr` bound: every strictly increasing 4-tuple of
indices below `n`, in lexicographic order. -/
def combinations4 (n : ℕ) : List (List ℕ) :=
  (List.range n).flatMap fun i =>
    (List.range n).flatMap fun j =>
      (List.range n).flatMap fun k =>
        (List.range n).filterMap fun l =>
          if i < j ∧ j < k ∧ k < l then some [i, j, k, l] else none

/-- Python `all(f(q) for q in qs)`: short-circuits at the first
`false`, propagating the first exception met before that. -/
def pyAll (f : List ℕ → Except PyErr Bool) : List (List ℕ) → Except PyErr Bool
  | [] => Except.ok true
  | q :: qs =>
    match f q with
    | Except.error e => Except.error e
    | Except.ok true => pyAll f qs
    | Except.ok false => Except.ok false

/-- The body of `is_additive` as it would evaluate if the name `itr`
were bound to the `itertools` module: enumerate the quartets of
`range(len(dist_matrix))` and return `all(four_point_condition(...))`.
The source never reaches this: see `is_additive`. -/
def is_additive_body (dist_matrix : DistMatrix) (tolerance : ℚ) :
    Except PyErr Bool :=
  pyAll (fun q => four_point_condition dist_matrix q tolerance)
    (combinations4 dist_matrix.length)

/-- Definition of `is_additive(dist_matrix, tolerance=1e-2)` as the module actually
executes: the body evaluates `len(dist_matrix)` and then the global
name `itr` in `itr.combinations(range(n), 4)`. The global
namespace of the module (`moduleGlobals`) binds no `itr`, so the lookup raises
`NameError` before any quartet is evaluated. -/
def is_additive (dist_matrix : DistMatrix) (tolerance : ℚ) :
    Except PyErr Bool :=
  let _n := dist_matrix.length
  if moduleGlobals.contains ("itr") then
    is_additive_body dist_matrix tolerance
  else
    Except.error PyErr.nameError

/-- The 4×4 all-ones-off-diagonal matrix, used as a concrete instance. -/
def exM4 : DistMatrix :=
  [[0, 1, 1, 1], [1, 0, 1, 1], [1, 1, 0, 1], [1, 1, 1, 0]]

/-- The 5×5 all-ones-off-diagonal matrix from the concrete scenario
of the spec. -/
def exM5 : DistMatrix :=
  [[0, 1, 1, 1, 1], [1, 0, 1, 1, 1], [1, 1, 0, 1, 1],
   [1, 1, 1, 0, 1], [1, 1, 1, 1, 0]]

/-- The two-well-separated-pairs matrix of the spec: `D[0][1] = D[2][3] = 2`,
all cross distances `10`. -/
def exM2p : DistMatrix :=
  [[0, 2, 10, 10], [2, 0, 10, 10], [10, 10, 0, 2], [10, 10, 2, 0]]

/-! ## Evaluation lemmas for valid quartets -/

/-- Mapping the three position patterns through an explicit 4-element
quartet. -/
lemma mapQuartet_quad (x0 x1 x2 x3 : ℕ) :
    mapQuartet [x0, x1, x2, x3] =
      Except.ok [(x0, x1, x2, x3), (x0, x2, x1, x3), (x0, x3, x1, x2)] := rfl

/-- Evaluating `fpc_sums` on a 4-element quartet whose six required matrix entries
exist: provided the middle indices do not collide (`x1 ≠ x2`,
`x2 ≠ x3`, which is what keeps the three dict keys distinct), the dict
has exactly the three pairing entries, in insertion order. -/
lemma fpc_sums_ok {D : DistMatrix} {x0 x1 x2 x3 : ℕ}
    {s01 s23 s02 s13 s03 s12 : ℚ}
    (h12 : x1 ≠ x2) (h23 : x2 ≠ x3)
    (m01 : mget D x0 x1 = some s01) (m23 : mget D x2 x3 = some s23)
    (m02 : mget D x0 x2 = some s02) (m13 : mget D x1 x3 = some s13)
    (m03 : mget D x0 x3 = some s03) (m12 : mget D x1 x2 = some s12) :
    fpc_sums D [x0, x1, x2, x3] =
      Except.ok [(((x0, x1), (x2, x3)), s01 + s23),
                 (((x0, x2), (x1, x3)), s02 + s13),
                 (((x0, x3), (x1, x2)), s03 + s12)] := by
  simp only [fpc_sums, mapQuartet_quad, fpcFold, mgetE,
    m01, m23, m02, m13, m03, m12, dictInsert,
    List.any_nil, List.any_cons, List.map_cons, List.map_nil,
    Bool.or_false, Prod.mk.injEq, decide_eq_true_eq]
  simp [h12, h23, Ne.symm h12, Ne.symm h23]

/-- On such a quartet, `four_point_condition` evaluates to the
`fpcCheck3` of the three pairing sums. -/
lemma four_point_condition_ok {D : DistMatrix} {x0 x1 x2 x3 : ℕ}
    {s01 s23 s02 s13 s03 s12 : ℚ} (t : ℚ)
    (h12 : x1 ≠ x2) (h23 : x2 ≠ x3)
    (m01 : mget D x0 x1 = some s01) (m23 : mget D x2 x3 = some s23)
    (m02 : mget D x0 x2 = some s02) (m13 : mget D x1 x3 = some s13)
    (m03 : mget D x0 x3 = some s03) (m12 : mget D x1 x2 = some s12) :
    four_point_condition D [x0, x1, x2, x3] t =
      Except.ok (fpcCheck3 (s01 + s23) (s02 + s13) (s03 + s12) t) := by
  simp only [four_point_condition,
    fpc_sums_ok h12 h23 m01 m23 m02 m13 m03 m12,
    List.map_cons, List.map_nil, List.foldl, fpcCheck3, apply_ite]
  split <;> simp_all

/-! ## Invariance of the count-based check under reordering the sums -/

/-- The check `fpcCheck3` only depends on the maximum of the three sums and on
how often each value occurs among them. -/
lemma fpcCheck3_congr {x1 x2 x3 y1 y2 y3 t : ℚ}
    (hmax : max (max x1 x2) x3 = max (max y1 y2) y3)
    (hperm : [x1, x2, x3].Perm [y1, y2, y3]) :
    fpcCheck3 x1 x2 x3 t = fpcCheck3 y1 y2 y3 t := by
  simp only [fpcCheck3, hmax, hperm.countP_eq]

lemma fpcCheck3_swap12 {s1 s2 s3 t : ℚ} :
    fpcCheck3 s2 s1 s3 t = fpcCheck3 s1 s2 s3 t :=
  fpcCheck3_congr (by rw [max_comm s2 s1]) (List.Perm.swap s1 s2 [s3])

lemma fpcCheck3_swap23 {s1 s2 s3 t : ℚ} :
    fpcCheck3 s1 s3 s2 t = fpcCheck3 s1 s2 s3 t :=
  fpcCheck3_congr (Max.right_comm s1 s3 s2)
    (List.Perm.cons s1 (List.Perm.swap s2 s3 []))

lemma fpcCheck3_rev {s1 s2 s3 t : ℚ} :
    fpcCheck3 s3 s2 s1 t = fpcCheck3 s1 s2 s3 t :=
  fpcCheck3_swap12.trans (fpcCheck3_swap23.trans fpcCheck3_swap12)

lemma fpcCheck3_rot {s1 s2 s3 t : ℚ} :
    fpcCheck3 s2 s3 s1 t = fpcCheck3 s1 s2 s3 t :=
  fpcCheck3_swap23.trans fpcCheck3_swap12

lemma fpcCheck3_rot2 {s1 s2 s3 t : ℚ} :
    fpcCheck3 s3 s1 s2 t = fpcCheck3 s1 s2 s3 t :=
  fpcCheck3_swap12.trans fpcCheck3_swap23

/-- On sums already sorted in decreasing order, the count-based check
decides exactly whether the two largest sums are within tolerance. -/
lemma fpcCheck3_sorted {s1 s2 s3 t : ℚ} (h21 : s2 ≤ s1) (h32 : s3 ≤ s2) :
    fpcCheck3 s1 s2 s3 t = true ↔ (s1 - s2) ^ 2 < t := by
  have hm : max (max s1 s2) s3 = s1 := by
    rw [max_eq_left h21, max_eq_left (h32.trans h21)]
  simp only [fpcCheck3, hm, List.countP_cons, List.countP_nil]
  have hle : (s1 - s2) ^ 2 ≤ (s1 - s3) ^ 2 := by nlinarith
  by_cases ht0 : (0:ℚ) < t
  · by_cases hc2 : (s1 - s2) ^ 2 < t
    · by_cases hc3 : (s1 - s3) ^ 2 < t <;> simp [hc2, hc3, ht0]
    · have hc3 : ¬ (s1 - s3) ^ 2 < t := fun h3 => hc2 (lt_of_le_of_lt hle h3)
      simp [hc2, hc3, ht0]
  · have hc2 : ¬ (s1 - s2) ^ 2 < t := fun hh => ht0 (lt_of_le_of_lt (sq_nonneg _) hh)
    have hc3 : ¬ (s1 - s3) ^ 2 < t := fun hh => ht0 (lt_of_le_of_lt (sq_nonneg _) hh)
    simp [hc2, hc3, ht0]

/-! ## Destructuring permutations of explicit short lists -/

lemma perm_pair {α : Type} {y z u v : α} (h : [y, z].Perm [u, v]) :
    (y = u ∧ z = v) ∨ (y = v ∧ z = u) := by
  have hy : y ∈ [u, v] := h.subset (by simp)
  simp only [List.mem_cons, List.not_mem_nil, or_false] at hy
  rcases hy with h1 | h1
  · subst h1
    have h2 := h.cons_inv
    rw [List.perm_singleton] at h2
    simp only [List.cons.injEq, and_true] at h2
    exact Or.inl ⟨rfl, h2⟩
  · subst h1
    have h2 := (h.trans (List.Perm.swap y u [])).cons_inv
    rw [List.perm_singleton] at h2
    simp only [List.cons.injEq, and_true] at h2
    exact Or.inr ⟨rfl, h2⟩

lemma perm_triple {α : Type} {x y z p q r : α} (h : [x, y, z].Perm [p, q, r]) :
    (x = p ∧ ((y = q ∧ z = r) ∨ (y = r ∧ z = q))) ∨
    (x = q ∧ ((y = p ∧ z = r) ∨ (y = r ∧ z = p))) ∨
    (x = r ∧ ((y = p ∧ z = q) ∨ (y = q ∧ z = p))) := by
  have hx : x ∈ [p, q, r] := h.subset (by simp)
  simp only [List.mem_cons, List.not_mem_nil, or_false] at hx
  rcases hx with h1 | h1 | h1
  · subst h1; exact Or.inl ⟨rfl, perm_pair h.cons_inv⟩
  · subst h1
    exact Or.inr (Or.inl ⟨rfl,
      perm_pair ((h.trans (List.Perm.swap x p [r])).cons_inv)⟩)
  · subst h1
    exact Or.inr (Or.inr ⟨rfl, perm_pair ((h.trans
      ((List.Perm.cons p (List.Perm.swap x q [])).trans
        (List.Perm.swap x p [q]))).cons_inv)⟩)

lemma perm_quad {α : Type} {w x y z a b c d : α} (h : [w, x, y, z].Perm [a, b, c, d]) :
    (w = a ∧ [x, y, z].Perm [b, c, d]) ∨
    (w = b ∧ [x, y, z].Perm [a, c, d]) ∨
    (w = c ∧ [x, y, z].Perm [a, b, d]) ∨
    (w = d ∧ [x, y, z].Perm [a, b, c]) := by
  have hw : w ∈ [a, b, c, d] := h.subset (by simp)
  simp only [List.mem_cons, List.not_mem_nil, or_false] at hw
  rcases hw with h1 | h1 | h1 | h1
  · subst h1; exact Or.inl ⟨rfl, h.cons_inv⟩
  · subst h1
    exact Or.inr (Or.inl ⟨rfl,
      (h.trans (List.Perm.swap w a [c, d])).cons_inv⟩)
  · subst h1
    exact Or.inr (Or.inr (Or.inl ⟨rfl, (h.trans
      ((List.Perm.cons a (List.Perm.swap w b [d])).trans
        (List.Perm.swap w a [b, d]))).cons_inv⟩))
  · subst h1
    exact Or.inr (Or.inr (Or.inr ⟨rfl, (h.trans
      ((List.Perm.cons a ((List.Perm.cons b (List.Perm.swap w c [])).trans
        (List.Perm.swap w b [c]))).trans
          (List.Perm.swap w a [b, c]))).cons_inv⟩))

/-! ## Tolerance at most zero makes every quartet fail -/

/-- When `tolerance ≤ 0`, no sum satisfies the strict comparison
`(s_max - s)^2 < tolerance`, so `four_point_condition` never returns
`true`: on any input it returns `false` or raises. -/
lemma fpc_tol_nonpos (D : DistMatrix) (q : List ℕ) {t : ℚ} (ht : t ≤ 0) :
    (four_point_condition D q t).toOption.getD false = false := by
  unfold four_point_condition
  cases hs : fpc_sums D q with
  | error e => simp [Except.toOption]
  | ok d =>
    cases hm : d.map fun e => e.2 with
    | nil => simp [hm, Except.toOption]
    | cons s0 rest =>
      have hcnt : ((s0 :: rest).countP fun s =>
          decide ((rest.foldl max s0 - s) ^ 2 < t)) = 0 := by
        apply List.countP_eq_zero.mpr
        intro s _
        simp only [decide_eq_true_eq]
        exact not_lt.mpr (ht.trans (sq_nonneg _))
      simp [hm, hcnt, Except.toOption]

/-! ## The short-circuiting conjunction of `is_additive` -/

lemma pyAll_eq_ok_true_iff (f : List ℕ → Except PyErr Bool)
    (qs : List (List ℕ)) :
    pyAll f qs = Except.ok true ↔ ∀ q ∈ qs, f q = Except.ok true := by
  induction qs with
  | nil => simp [pyAll]
  | cons q qs ih =>
    cases hq : f q with
    | error e => simp [pyAll, hq]
    | ok b => cases b <;> simp [pyAll, hq, ih]

lemma pyAll_not_ok_true (f : List ℕ → Except PyErr Bool) (q : List ℕ)
    (qs : List (List ℕ))
    (hall : ∀ p ∈ q :: qs, ∀ b, f p = Except.ok b → b = false) :
    (pyAll f (q :: qs)).toOption.getD false = false := by
  cases hq : f q with
  | error e => simp [pyAll, hq, Except.toOption]
  | ok b =>
    have hb : b = false := hall q (by simp) b hq
    subst hb
    simp [pyAll, hq, Except.toOption]

lemma combinations4_eq_nil {n : ℕ} (h : n < 4) : combinations4 n = [] := by
  interval_cases n <;> rfl

lemma head_mem_combinations4 {n : ℕ} (h : 4 ≤ n) :
    [0, 1, 2, 3] ∈ combinations4 n := by
  simp only [combinations4, List.mem_flatMap, List.mem_filterMap,
    List.mem_range]
  exact ⟨0, by omega, 1, by omega, 2, by omega, 3, by omega, by norm_num⟩

/-! ## Permutation invariance of `four_point_condition` (claim C4) -/

/-- C4. For a symmetric matrix, a quartet of four distinct valid
indices, and any tolerance, `four_point_condition` returns the same
result on every reordering of the quartet: with symmetry, reordering
only permutes the three pairing sums, and the count-based check is
insensitive to that. -/
theorem four_point_condition_perm_invariant (D : DistMatrix)
    (hsym : ∀ i j, mget D i j = mget D j i)
    (a b c d : ℕ)
    (hv : ∀ i ∈ [a, b, c, d], ∀ j ∈ [a, b, c, d], (mget D i j).isSome = true)
    (dab : a ≠ b) (dac : a ≠ c) (dad : a ≠ d)
    (dbc : b ≠ c) (dbd : b ≠ d) (dcd : c ≠ d)
    (t : ℚ) (q : List ℕ) (hq : q.Perm [a, b, c, d]) :
    four_point_condition D q t = four_point_condition D [a, b, c, d] t := by
  obtain ⟨w, x, y, z, rfl⟩ : ∃ w x y z, q = [w, x, y, z] := by
    have hl := hq.length_eq
    rcases q with _ | ⟨w, _ | ⟨x, _ | ⟨y, _ | ⟨z, _ | ⟨u, rest⟩⟩⟩⟩⟩
    · simp at hl
    · simp at hl
    · simp at hl
    · simp at hl
    · exact ⟨w, x, y, z, rfl⟩
    · simp only [List.length_cons, List.length_nil] at hl; omega
  obtain ⟨vab, hab⟩ := Option.isSome_iff_exists.mp (hv a (by simp) b (by simp))
  obtain ⟨vac, hac⟩ := Option.isSome_iff_exists.mp (hv a (by simp) c (by simp))
  obtain ⟨vad, had⟩ := Option.isSome_iff_exists.mp (hv a (by simp) d (by simp))
  obtain ⟨vbc, hbc⟩ := Option.isSome_iff_exists.mp (hv b (by simp) c (by simp))
  obtain ⟨vbd, hbd⟩ := Option.isSome_iff_exists.mp (hv b (by simp) d (by simp))
  obtain ⟨vcd, hcd⟩ := Option.isSome_iff_exists.mp (hv c (by simp) d (by simp))
  have hba : mget D b a = some vab := (hsym b a).trans hab
  have hca : mget D c a = some vac := (hsym c a).trans hac
  have hda : mget D d a = some vad := (hsym d a).trans had
  have hcb : mget D c b = some vbc := (hsym c b).trans hbc
  have hdb : mget D d b = some vbd := (hsym d b).trans hbd
  have hdc : mget D d c = some vcd := (hsym d c).trans hcd
  have dba := dab.symm
  have dca := dac.symm
  have dda := dad.symm
  have dcb := dbc.symm
  have ddb := dbd.symm
  have ddc := dcd.symm
  have hbase : four_point_condition D [a, b, c, d] t =
      Except.ok (fpcCheck3 (vab + vcd) (vac + vbd) (vad + vbc) t) :=
    four_point_condition_ok t dbc dcd hab hcd hac hbd had hbc
  rcases perm_quad hq with ⟨rfl, h3⟩ | ⟨rfl, h3⟩ | ⟨rfl, h3⟩ | ⟨rfl, h3⟩ <;>
    rcases perm_triple h3 with ⟨rfl, ⟨rfl, rfl⟩ | ⟨rfl, rfl⟩⟩ |
      ⟨rfl, ⟨rfl, rfl⟩ | ⟨rfl, rfl⟩⟩ | ⟨rfl, ⟨rfl, rfl⟩ | ⟨rfl, rfl⟩⟩
  -- [a,b,c,d]
  · rfl
  -- [a,b,d,c]
  · rw [four_point_condition_ok t dbd dcd.symm hab hdc had hbc hac hbd, hbase]
    exact congrArg Except.ok fpcCheck3_swap23
  -- [a,c,b,d]
  · rw [four_point_condition_ok t dcb dbd hac hbd hab hcd had hcb, hbase]
    exact congrArg Except.ok fpcCheck3_swap12
  -- [a,c,d,b]
  · rw [four_point_condition_ok t dcd ddb hac hdb had hcb hab hcd, hbase]
    exact congrArg Except.ok fpcCheck3_rot
  -- [a,d,b,c]
  · rw [four_point_condition_ok t ddb dbc had hbc hab hdc hac hdb, hbase]
    exact congrArg Except.ok fpcCheck3_rot2
  -- [a,d,c,b]
  · rw [four_point_condition_ok t ddc dcb had hcb hac hdb hab hdc, hbase]
    exact congrArg Except.ok fpcCheck3_rev
  -- [b,a,c,d]
  · rw [four_point_condition_ok t dac dcd hba hcd hbc had hbd hac, hbase,
      add_comm vbc vad, add_comm vbd vac]
    exact congrArg Except.ok fpcCheck3_swap23
  -- [b,a,d,c]
  · rw [four_point_condition_ok t dad ddc hba hdc hbd hac hbc had, hbase,
      add_comm vbd vac, add_comm vbc vad]
  -- [b,c,a,d]
  · rw [four_point_condition_ok t dca dad hbc had hba hcd hbd hca, hbase,
      add_comm vbc vad, add_comm vbd vac]
    exact congrArg Except.ok fpcCheck3_rot2
  -- [b,c,d,a]
  · rw [four_point_condition_ok t dcd dda hbc hda hbd hca hba hcd, hbase,
      add_comm vbc vad, add_comm vbd vac]
    exact congrArg Except.ok fpcCheck3_rev
  -- [b,d,a,c]
  · rw [four_point_condition_ok t dda dac hbd hac hba hdc hbc hda, hbase,
      add_comm vbd vac, add_comm vbc vad]
    exact congrArg Except.ok fpcCheck3_swap12
  -- [b,d,c,a]
  · rw [four_point_condition_ok t ddc dca hbd hca hbc hda hba hdc, hbase,
      add_comm vbd vac, add_comm vbc vad]
    exact congrArg Except.ok fpcCheck3_rot
  -- [c,a,b,d]
  · rw [four_point_condition_ok t dab dbd hca hbd hcb had hcd hab, hbase,
      add_comm vbc vad, add_comm vcd vab]
    exact congrArg Except.ok fpcCheck3_rot
  -- [c,a,d,b]
  · rw [four_point_condition_ok t dad ddb hca hdb hcd hab hcb had, hbase,
      add_comm vcd vab, add_comm vbc vad]
    exact congrArg Except.ok fpcCheck3_swap12
  -- [c,b,a,d]
  · rw [four_point_condition_ok t dba dad hcb had hca hbd hcd hba, hbase,
      add_comm vbc vad, add_comm vcd vab]
    exact congrArg Except.ok fpcCheck3_rev
  -- [c,b,d,a]
  · rw [four_point_condition_ok t dbd dda hcb hda hcd hba hca hbd, hbase,
      add_comm vbc vad, add_comm vcd vab]
    exact congrArg Except.ok fpcCheck3_rot2
  -- [c,d,a,b]
  · rw [four_point_condition_ok t dda dab hcd hab hca hdb hcb hda, hbase,
      add_comm vcd vab, add_comm vbc vad]
  -- [c,d,b,a]
  · rw [four_point_condition_ok t ddb dba hcd hba hcb hda hca hdb, hbase,
      add_comm vcd vab, add_comm vbc vad]
    exact congrArg Except.ok fpcCheck3_swap23
  -- [d,a,b,c]
  · rw [four_point_condition_ok t dab dbc hda hbc hdb hac hdc hab, hbase,
      add_comm vbd vac, add_comm vcd vab]
    exact congrArg Except.ok fpcCheck3_rev
  -- [d,a,c,b]
  · rw [four_point_condition_ok t dac dcb hda hcb hdc hab hdb hac, hbase,
      add_comm vcd vab, add_comm vbd vac]
    exact congrArg Except.ok fpcCheck3_rot2
  -- [d,b,a,c]
  · rw [four_point_condition_ok t dba dac hdb hac hda hbc hdc hba, hbase,
      add_comm vbd vac, add_comm vcd vab]
    exact congrArg Except.ok fpcCheck3_rot
  -- [d,b,c,a]
  · rw [four_point_condition_ok t dbc dca hdb hca hdc hba hda hbc, hbase,
      add_comm vbd vac, add_comm vcd vab]
    exact congrArg Except.ok fpcCheck3_swap12
  -- [d,c,a,b]
  · rw [four_point_condition_ok t dca dab hdc hab hda hcb hdb hca, hbase,
      add_comm vcd vab, add_comm vbd vac]
    exact congrArg Except.ok fpcCheck3_swap23
  -- [d,c,b,a]
  · rw [four_point_condition_ok t dcb dba hdc hba hdb hca hda hcb, hbase,
      add_comm vcd vab, add_comm vbd vac]

/-! ## The count-based check decides closeness of the two largest sums -/

/-- C9. For a quartet of four distinct valid indices with pairing sums
sorted decreasingly as `s1 ≥ s2 ≥ s3`, `four_point_condition` returns
`true` exactly when `(s1 - s2)^2 < tolerance`: counting the sums within
tolerance of the maximum and comparing the count with 2 decides whether
the two largest sums are within tolerance of each other. -/
theorem four_point_condition_two_largest {D : DistMatrix} {a b c d : ℕ}
    {vab vcd vac vbd vad vbc : ℚ} (t : ℚ)
    (dab : a ≠ b) (dac : a ≠ c) (dad : a ≠ d)
    (dbc : b ≠ c) (dbd : b ≠ d) (dcd : c ≠ d)
    (hab : mget D a b = some vab) (hcd : mget D c d = some vcd)
    (hac : mget D a c = some vac) (hbd : mget D b d = some vbd)
    (had : mget D a d = some vad) (hbc : mget D b c = some vbc)
    (s1 s2 s3 : ℚ)
    (hperm : [s1, s2, s3].Perm [vab + vcd, vac + vbd, vad + vbc])
    (h21 : s2 ≤ s1) (h32 : s3 ≤ s2) :
    (four_point_condition D [a, b, c, d] t = Except.ok true) ↔
      (s1 - s2) ^ 2 < t := by
  rw [four_point_condition_ok t dbc dcd hab hcd hac hbd had hbc]
  simp only [Except.ok.injEq]
  rcases perm_triple hperm with ⟨rfl, ⟨rfl, rfl⟩ | ⟨rfl, rfl⟩⟩ |
    ⟨rfl, ⟨rfl, rfl⟩ | ⟨rfl, rfl⟩⟩ | ⟨rfl, ⟨rfl, rfl⟩ | ⟨rfl, rfl⟩⟩
  · exact fpcCheck3_sorted h21 h32
  · rw [fpcCheck3_swap23]; exact fpcCheck3_sorted h21 h32
  · rw [fpcCheck3_swap12]; exact fpcCheck3_sorted h21 h32
  · rw [fpcCheck3_rot2]; exact fpcCheck3_sorted h21 h32
  · rw [fpcCheck3_rot]; exact fpcCheck3_sorted h21 h32
  · rw [fpcCheck3_rev]; exact fpcCheck3_sorted h21 h32

/-! ## Claim theorems on `is_additive` and concrete instances -/

/-- C2. The module binds no global named `itr` (it has no import
statement), so every call to `is_additive` raises `NameError` before
any quartet is evaluated: it never returns a boolean. -/
theorem is_additive_raises_nameError :
    moduleGlobals.contains ("itr") = false ∧
    ∀ (D : DistMatrix) (t : ℚ),
      is_additive D t = Except.error PyErr.nameError :=
  ⟨rfl, fun _ _ => rfl⟩

/-- C1. As executed, `is_additive` raises `NameError` even on a well
formed matrix (witnessed on `exM4` at the default tolerance); the body
it was documented to run returns `ok true` exactly when every
4-combination of indices passes `four_point_condition`, and the
short-circuiting `all` does not change that boolean. -/
theorem is_additive_conjunction_over_quartets :
    is_additive exM4 (1/100) = Except.error PyErr.nameError ∧
    ∀ (D : DistMatrix) (t : ℚ),
      (is_additive_body D t = Except.ok true ↔
        ∀ q ∈ combinations4 D.length,
          four_point_condition D q t = Except.ok true) :=
  ⟨rfl, fun D t => pyAll_eq_ok_true_iff _ _⟩

/-- C5. As executed, `is_additive` raises `NameError` even on a matrix
with fewer than 4 rows; the documented body returns `true` vacuously
there, because no quartet exists. -/
theorem is_additive_small_matrix :
    is_additive ([] : DistMatrix) (1/100) = Except.error PyErr.nameError ∧
    ∀ (D : DistMatrix) (t : ℚ), D.length < 4 →
      is_additive_body D t = Except.ok true := by
  refine ⟨rfl, fun D t h => ?_⟩
  unfold is_additive_body
  rw [combinations4_eq_nil h]
  rfl

theorem is_additive_small_matrix_witness :
    ([[0, 1], [1, 0]] : DistMatrix).length < 4 ∧
      is_additive_body [[0, 1], [1, 0]] (1/100) = Except.ok true :=
  ⟨by decide, is_additive_small_matrix.2 [[0, 1], [1, 0]] (1/100) (by decide)⟩

/-- C3 counterexample. On the all-ones 4×4 matrix all three pairing
sums of the quartet `(0,1,2,3)` are exactly `2`, so the two largest
sums are exactly equal and at least two sums tie at the maximum; yet
with tolerance `0` the quartet does not pass: the strict comparison
`(s_max - s)^2 < 0` holds for no sum. -/
theorem fpc_zero_tolerance_tie_fails :
    four_point_condition exM4 [0, 1, 2, 3] 0 = Except.ok false := by
  rw [@four_point_condition_ok exM4 0 1 2 3 1 1 1 1 1 1 0
    (by decide) (by decide) rfl rfl rfl rfl rfl rfl]
  norm_num [fpcCheck3, List.countP_cons, List.countP_nil]

/-- C3 amended. With tolerance `0`, `four_point_condition` never
returns `true` on any matrix and quartet: it either raises or returns
`false`, exact ties at the maximum included. -/
theorem fpc_zero_tolerance_never_true :
    ∀ (D : DistMatrix) (q : List ℕ),
      (four_point_condition D q 0).toOption.getD false = false :=
  fun D q => fpc_tol_nonpos D q le_rfl

/-- C6. On a quartet of four distinct valid indices, `fpc_sums`
returns a mapping of exactly 3 entries: the three pairing sums
`D[q0][q1]+D[q2][q3]`, `D[q0][q2]+D[q1][q3]`, `D[q0][q3]+D[q1][q2]`,
each keyed by its pair of index-pairs. -/
theorem fpc_sums_three_pairing_entries (D : DistMatrix) (q0 q1 q2 q3 : ℕ)
    {x01 x23 x02 x13 x03 x12 : ℚ}
    (d01 : q0 ≠ q1) (d02 : q0 ≠ q2) (d03 : q0 ≠ q3)
    (d12 : q1 ≠ q2) (d13 : q1 ≠ q3) (d23 : q2 ≠ q3)
    (m01 : mget D q0 q1 = some x01) (m23 : mget D q2 q3 = some x23)
    (m02 : mget D q0 q2 = some x02) (m13 : mget D q1 q3 = some x13)
    (m03 : mget D q0 q3 = some x03) (m12 : mget D q1 q2 = some x12) :
    fpc_sums D [q0, q1, q2, q3] =
      Except.ok [(((q0, q1), (q2, q3)), x01 + x23),
                 (((q0, q2), (q1, q3)), x02 + x13),
                 (((q0, q3), (q1, q2)), x03 + x12)] :=
  fpc_sums_ok d12 d23 m01 m23 m02 m13 m03 m12

theorem fpc_sums_three_pairing_entries_witness :
    fpc_sums exM4 [0, 1, 2, 3] =
      Except.ok [(((0, 1), (2, 3)), 1 + 1),
                 (((0, 2), (1, 3)), 1 + 1),
                 (((0, 3), (1, 2)), 1 + 1)] :=
  fpc_sums_three_pairing_entries exM4 0 1 2 3 (by decide) (by decide)
    (by decide) (by decide) (by decide) (by decide) rfl rfl rfl rfl rfl rfl

/-- C7 counterexample. The quartet `(0,1,1,2)` has a duplicated
in-range index, yet `fpc_sums` raises nothing: the first two pairing
keys collide, and it silently returns a mapping with only 2 entries. -/
theorem fpc_sums_duplicate_index_silent :
    fpc_sums exM4 [0, 1, 1, 2] =
      Except.ok [(((0, 1), (1, 2)), 2), (((0, 2), (1, 1)), 1)] := by
  have h1 : mapQuartet [0, 1, 1, 2] =
      Except.ok [(0, 1, 1, 2), (0, 1, 1, 2), (0, 2, 1, 1)] := rfl
  have e01 : mget exM4 0 1 = some 1 := rfl
  have e12 : mget exM4 1 2 = some 1 := rfl
  have e02 : mget exM4 0 2 = some 1 := rfl
  have e11 : mget exM4 1 1 = some 0 := rfl
  simp only [fpc_sums, h1, fpcFold, mgetE, e01, e12, e02, e11, dictInsert]
  norm_num

/-- On a square matrix, a successful lookup `distances[i][j]` forces
both indices into range. -/
lemma mget_some_bounds {D : DistMatrix} {i j : ℕ} {v : ℚ}
    (hsq : ∀ row ∈ D, row.length = D.length)
    (h : mget D i j = some v) : i < D.length ∧ j < D.length := by
  unfold mget at h
  obtain ⟨row, hrow, hv⟩ := Option.bind_eq_some.mp h
  refine ⟨(List.get?_eq_some.mp hrow).choose, ?_⟩
  have hj : j < row.length := (List.get?_eq_some.mp hv).choose
  rwa [hsq row (List.get?_mem hrow)] at hj

/-- On a square matrix, a lookup `distances[i][j]` with either index
out of range raises `IndexError` (modelled as `none`). -/
lemma mget_none_of_out {D : DistMatrix} {i j : ℕ}
    (hsq : ∀ row ∈ D, row.length = D.length)
    (h : D.length ≤ i ∨ D.length ≤ j) : mget D i j = none := by
  rcases h with h | h
  · unfold mget
    rw [List.get?_eq_none.mpr h]
    rfl
  · unfold mget
    cases hg : D.get? i with
    | none => rfl
    | some row =>
      have hlen : row.length = D.length := hsq row (List.get?_mem hg)
      simp
      omega

/-- C7 amended. On a square matrix, a quartet with an out-of-range
index in any position fails fast with `IndexError` (the first pairing
already looks up both `D[q0][q1]` and `D[q2][q3]`, so every index is
touched before any entry is produced); but a quartet with a duplicated
in-range index (in a position where the pairing keys collide) does not
fail: it silently yields a mapping with only 2 entries. -/
theorem fpc_sums_invalid_quartet_behavior :
    (∀ (D : DistMatrix) (q0 q1 q2 q3 : ℕ),
      (∀ row ∈ D, row.length = D.length) →
      (D.length ≤ q0 ∨ D.length ≤ q1 ∨ D.length ≤ q2 ∨ D.length ≤ q3) →
      fpc_sums D [q0, q1, q2, q3] = Except.error PyErr.indexError) ∧
    (∀ (D : DistMatrix) (q0 q1 q3 : ℕ) (x01 x13 x03 x11 : ℚ), q1 ≠ q3 →
      mget D q0 q1 = some x01 → mget D q1 q3 = some x13 →
      mget D q0 q3 = some x03 → mget D q1 q1 = some x11 →
      (fpc_sums D [q0, q1, q1, q3]).map List.length = Except.ok 2) := by
  constructor
  · intro D q0 q1 q2 q3 hsq hout
    cases hm : mget D q0 q1 with
    | none =>
      simp only [fpc_sums, mapQuartet_quad, fpcFold, mgetE, hm]
    | some v =>
      obtain ⟨h0, h1⟩ := mget_some_bounds hsq hm
      have hm23 : mget D q2 q3 = none := by
        apply mget_none_of_out hsq
        rcases hout with h | h | h | h
        · omega
        · omega
        · exact Or.inl h
        · exact Or.inr h
      simp only [fpc_sums, mapQuartet_quad, fpcFold, mgetE, hm, hm23]
  · intro D q0 q1 q3 x01 x13 x03 x11 h13 m01 m13 m03 m11
    have h1 : mapQuartet [q0, q1, q1, q3] =
        Except.ok [(q0, q1, q1, q3), (q0, q1, q1, q3), (q0, q3, q1, q1)] := rfl
    simp only [fpc_sums, h1, fpcFold, mgetE, m01, m13, m03, m11, dictInsert,
      List.any_nil, List.any_cons, Bool.or_false, Prod.mk.injEq,
      decide_eq_true_eq]
    simp [h13, Ne.symm h13, Except.map]

theorem fpc_sums_invalid_quartet_behavior_witness :
    fpc_sums exM4 [0, 1, 2, 7] = Except.error PyErr.indexError ∧
      (fpc_sums exM4 [0, 1, 1, 2]).map List.length = Except.ok 2 :=
  ⟨fpc_sums_invalid_quartet_behavior.1 exM4 0 1 2 7 (by decide) (by decide),
   fpc_sums_invalid_quartet_behavior.2 exM4 0 1 2 1 1 1 0 (by decide)
     rfl rfl rfl rfl⟩

/-- C8. For a negative tolerance every comparison `(s_max - s)^2 < t`
fails, so `four_point_condition` never returns `true` (it returns
`false`, or raises on a malformed input); the documented body of
`is_additive` consequently cannot return `true` on any matrix with at
least 4 rows; the `is_additive` of the source, however, raises
`NameError` rather than returning `false`. -/
theorem four_point_condition_negative_tolerance (t : ℚ) (ht : t < 0) :
    (∀ (D : DistMatrix) (q : List ℕ),
        (four_point_condition D q t).toOption.getD false = false) ∧
    (∀ D : DistMatrix, 4 ≤ D.length →
        (is_additive_body D t).toOption.getD false = false) ∧
    (∀ D : DistMatrix, is_additive D t = Except.error PyErr.nameError) := by
  refine ⟨fun D q => fpc_tol_nonpos D q ht.le, fun D h4 => ?_, fun D => rfl⟩
  have hmem := head_mem_combinations4 h4
  unfold is_additive_body
  rcases hq : combinations4 D.length with _ | ⟨q, qs⟩
  · rw [hq] at hmem; simp at hmem
  · apply pyAll_not_ok_true
    intro p hp b hb
    have hres := fpc_tol_nonpos D p ht.le
    rw [hb] at hres
    simpa using hres

theorem four_point_condition_negative_tolerance_witness :
    (four_point_condition exM4 [0, 1, 2, 3] (-1)).toOption.getD false
        = false ∧
      (is_additive_body exM4 (-1)).toOption.getD false = false :=
  ⟨(four_point_condition_negative_tolerance (-1) (by decide)).1
      exM4 [0, 1, 2, 3],
   (four_point_condition_negative_tolerance (-1) (by decide)).2.1
      exM4 (by decide)⟩

/-- C10. On the 5×5 all-pairwise-distance-1 matrix at the default
tolerance `1e-2`: the `is_additive` of the source raises `NameError`;
every one of the five quartets has all three pairing sums equal to `2`;
and the documented body of `is_additive` returns `true`. -/
theorem is_additive_concrete_all_ones_5 :
    is_additive exM5 (1/100) = Except.error PyErr.nameError ∧
    (∀ q ∈ combinations4 5,
      (fpc_sums exM5 q).map (List.map fun e => e.2) =
        Except.ok [2, 2, 2]) ∧
    is_additive_body exM5 (1/100) = Except.ok true := by
  have h5 : combinations4 5 =
      [[0,1,2,3], [0,1,2,4], [0,1,3,4], [0,2,3,4], [1,2,3,4]] := rfl
  have hchk : fpcCheck3 (1+1) (1+1) (1+1) (1/100) = true := by
    norm_num [fpcCheck3, List.countP_cons, List.countP_nil]
  refine ⟨rfl, ?_, ?_⟩
  · intro q hq
    rw [h5] at hq
    fin_cases hq
    · rw [@fpc_sums_ok exM5 0 1 2 3 1 1 1 1 1 1
        (by decide) (by decide) rfl rfl rfl rfl rfl rfl]
      norm_num [Except.map]
    · rw [@fpc_sums_ok exM5 0 1 2 4 1 1 1 1 1 1
        (by decide) (by decide) rfl rfl rfl rfl rfl rfl]
      norm_num [Except.map]
    · rw [@fpc_sums_ok exM5 0 1 3 4 1 1 1 1 1 1
        (by decide) (by decide) rfl rfl rfl rfl rfl rfl]
      norm_num [Except.map]
    · rw [@fpc_sums_ok exM5 0 2 3 4 1 1 1 1 1 1
        (by decide) (by decide) rfl rfl rfl rfl rfl rfl]
      norm_num [Except.map]
    · rw [@fpc_sums_ok exM5 1 2 3 4 1 1 1 1 1 1
        (by decide) (by decide) rfl rfl rfl rfl rfl rfl]
      norm_num [Except.map]
  · have hq1 : four_point_condition exM5 [0,1,2,3] (1/100) = Except.ok true := by
      rw [@four_point_condition_ok exM5 0 1 2 3 1 1 1 1 1 1 (1/100)
        (by decide) (by decide) rfl rfl rfl rfl rfl rfl, hchk]
    have hq2 : four_point_condition exM5 [0,1,2,4] (1/100) = Except.ok true := by
      rw [@four_point_condition_ok exM5 0 1 2 4 1 1 1 1 1 1 (1/100)
        (by decide) (by decide) rfl rfl rfl rfl rfl rfl, hchk]
    have hq3 : four_point_condition exM5 [0,1,3,4] (1/100) = Except.ok true := by
      rw [@four_point_condition_ok exM5 0 1 3 4 1 1 1 1 1 1 (1/100)
        (by decide) (by decide) rfl rfl rfl rfl rfl rfl, hchk]
    have hq4 : four_point_condition exM5 [0,2,3,4] (1/100) = Except.ok true := by
      rw [@four_point_condition_ok exM5 0 2 3 4 1 1 1 1 1 1 (1/100)
        (by decide) (by decide) rfl rfl rfl rfl rfl rfl, hchk]
    have hq5 : four_point_condition exM5 [1,2,3,4] (1/100) = Except.ok true := by
      rw [@four_point_condition_ok exM5 1 2 3 4 1 1 1 1 1 1 (1/100)
        (by decide) (by decide) rfl rfl rfl rfl rfl rfl, hchk]
    unfold is_additive_body
    rw [show exM5.length = 5 from rfl, h5]
    simp only [pyAll]
    rw [hq1, hq2, hq3, hq4, hq5]

theorem four_point_condition_perm_invariant_witness :
    four_point_condition exM4 [2, 0, 3, 1] (1/100) =
      four_point_condition exM4 [0, 1, 2, 3] (1/100) :=
  four_point_condition_perm_invariant exM4
    (fun i j => by
      rcases i with _ | _ | _ | _ | i <;>
        rcases j with _ | _ | _ | _ | j <;> rfl)
    0 1 2 3 (by decide) (by decide) (by decide) (by decide) (by decide)
    (by decide) (by decide) (1/100) [2, 0, 3, 1] (by decide)

theorem four_point_condition_two_largest_witness :
    (four_point_condition exM2p [0, 1, 2, 3] (1/100) = Except.ok true) ↔
      ((10 + 10 : ℚ) - (10 + 10)) ^ 2 < 1/100 :=
  @four_point_condition_two_largest exM2p 0 1 2 3 2 2 10 10 10 10
    (1/100) (by decide) (by decide)
    (by decide) (by decide) (by decide) (by decide) rfl rfl rfl rfl rfl rfl
    (10 + 10) (10 + 10) (2 + 2)
    ((List.Perm.cons (10 + 10) (List.Perm.swap (2 + 2 : ℚ) (10 + 10) [])).trans
      (List.Perm.swap (2 + 2 : ℚ) (10 + 10) [10 + 10]))
    (le_refl _) (by norm_num)

theorem is_additive_conjunction_over_quartets_witness :
    is_additive_body exM4 (1/100) = Except.ok true ↔
      ∀ q ∈ combinations4 exM4.length,
        four_point_condition exM4 q (1/100) = Except.ok true :=
  is_additive_conjunction_over_quartets.2 exM4 (1/100)
